import Mathlib

/-!
Verification of the ticker engine of the chyron repository
(`src/ticker.rs`), shallowly embedded in Lean.

Modelling conventions:
* Rust `String` values and `Vec<char>` buffers are modelled as `List Char`;
  all positions are counted in characters, exactly as the Rust code counts
  them via `chars().count()`.
* The floating-point scroll offset `f64` is modelled as `ℚ` with exact
  arithmetic; the Rust cast `offset as usize` (truncation toward zero,
  saturating at 0 for negative values) is modelled by `floorNat`.
* `HashSet<String>` is modelled as a duplicate-free-by-construction
  `List (List Char)` with membership, `List.insert` and `List.filter`
  playing the roles of `contains`, `insert` and `retain`.
* `Ticker::set_headlines` first permutes the incoming list according to a
  `SortMode` (randomised shuffling or wall-clock-dependent date sorting).
  That permutation step is external nondeterminism; `set_headlines` below
  models the body from the fair-rotation partition onward, applied to the
  already-sorted list.  Theorems quantify over arbitrary input lists, hence
  cover every possible sort outcome.
-/

namespace Chyron

/-- `RotationMode` from `config.rs`: continuous repetition versus fair
rotation that shows every headline once before repeats. -/
inductive RotationMode
  | Continuous
  | Fair
deriving DecidableEq, Repr

/-- `Headline` from `feeds.rs`: title, optional URL and source label.
The `published` timestamp only participates in the external sorting step
and is omitted from the model. -/
structure Headline where
  title : List Char
  url : Option (List Char)
  source : List Char
deriving DecidableEq, Repr

/-- `TickerSegment` from `ticker.rs`: a character range of the buffer
mapped to an optional URL. -/
structure TickerSegment where
  start : Nat
  «end» : Nat
  url : Option (List Char)
deriving DecidableEq, Repr

/-- `VisibleSegment` from `ticker.rs`: a segment expressed in
viewport-local coordinates. -/
structure VisibleSegment where
  start : Nat
  «end» : Nat
  url : Option (List Char)
deriving DecidableEq, Repr

/-- The fields of `Config` that `Ticker::new` reads. -/
structure Config where
  speed : Nat
  delimiter : List Char
  show_source : Bool
  rotation : RotationMode

/-- The `Ticker` state from `ticker.rs`. -/
structure Ticker where
  headlines : List Headline
  ticker_text : List Char
  ticker_chars : List Char
  segments : List TickerSegment
  offset : ℚ
  speed : Nat
  delimiter : List Char
  show_source : Bool
  paused : Bool
  rotation_mode : RotationMode
  shown_urls : List (List Char)
  current_headline_idx : Nat
  current_headline_end : Nat
deriving DecidableEq, Repr

/-- Rust's `f64 as usize` cast for the offsets appearing here:
floor, clamped to zero from below. -/
def floorNat (q : ℚ) : Nat := ⌊q⌋.toNat

/-- `Ticker::new`. -/
def Ticker.new (config : Config) : Ticker where
  headlines := []
  ticker_text := []
  ticker_chars := []
  segments := []
  offset := 0
  speed := config.speed
  delimiter := config.delimiter
  show_source := config.show_source
  paused := false
  rotation_mode := config.rotation
  shown_urls := []
  current_headline_idx := 0
  current_headline_end := 0

/-- `Ticker::is_headline_shown`: membership of the headline's identity key
(URL if present, else title) in the shown set. -/
def is_headline_shown (t : Ticker) (h : Headline) : Bool :=
  match h.url with
  | some url => decide (url ∈ t.shown_urls)
  | none => decide (h.title ∈ t.shown_urls)

/-- The display text of one headline: `"[source] title"` when the source
prefix is enabled, else the bare title (`rebuild_ticker_text`, the
`format!` call). -/
def displayText (show_source : Bool) (h : Headline) : List Char :=
  if show_source then '[' :: (h.source ++ (']' :: ' ' :: h.title)) else h.title

/-- The placeholder installed for an empty headline list. -/
def placeholderText : List Char :=
  "No headlines available. Check your feed configuration.".toList

/-- The loop body of `rebuild_ticker_text`: walks the headlines carrying
the running index and character position, emitting text and segments. -/
def rebuildLoop (ss : Bool) (delim : List Char) :
    List Headline → Nat → Nat → List Char × List TickerSegment
  | [], _, _ => ([], [])
  | h :: rest, idx, pos =>
      let pre : List Char := if 0 < idx then delim else []
      let pos1 := pos + pre.length
      let d := displayText ss h
      let pos2 := pos1 + d.length
      let r := rebuildLoop ss delim rest (idx + 1) pos2
      (pre ++ (d ++ r.1), ⟨pos1, pos2, h.url⟩ :: r.2)

/-- `Ticker::rebuild_ticker_text`.  Note that in the empty-headlines branch
the Rust code stores the placeholder in `ticker_text` and returns early,
leaving the cached `ticker_chars` untouched; the model reproduces that. -/
def rebuild_ticker_text (t : Ticker) : Ticker :=
  if t.headlines.isEmpty then
    { t with segments := [], ticker_text := placeholderText }
  else
    let r := rebuildLoop t.show_source t.delimiter t.headlines 0 0
    let full := r.1 ++ t.delimiter
    { t with segments := r.2, ticker_chars := full, ticker_text := full }

/-- The fair-rotation block of `Ticker::set_headlines`: partition into
unshown/shown by identity key, retain only keys whose URL still occurs,
and on exhaustion clear the shown set and keep the shown order.  Returns
the new shown set and the new headline order. -/
def fairReconcile (t : Ticker) (headlines0 : List Headline) :
    List (List Char) × List Headline :=
  if t.rotation_mode = RotationMode.Fair then
    let unshown := headlines0.filter (fun h => ! is_headline_shown t h)
    let shown := headlines0.filter (fun h => is_headline_shown t h)
    let all_urls := (unshown ++ shown).filterMap Headline.url
    let shown_urls1 := t.shown_urls.filter (fun u => decide (u ∈ all_urls))
    if unshown.isEmpty ∧ ¬ shown.isEmpty then
      ([], shown)
    else
      (shown_urls1, unshown ++ shown)
  else
    (t.shown_urls, headlines0)

/-- `Ticker::set_headlines`, from the fair-rotation partition onward (the
preceding `SortMode` permutation is external; see the module docstring). -/
def set_headlines (t : Ticker) (headlines0 : List Headline) : Ticker :=
  let fairStep := fairReconcile t headlines0
  let t1 := rebuild_ticker_text
    { t with shown_urls := fairStep.1, headlines := fairStep.2 }
  let len : ℚ := t1.ticker_chars.length
  let t2 := if 0 < len ∧ len ≤ t1.offset then { t1 with offset := 0 } else t1
  { t2 with
    current_headline_idx := 0
    current_headline_end :=
      match t2.segments with
      | [] => 0
      | s :: _ => s.«end» }

/-- `Ticker::mark_current_headline_shown`. -/
def mark_current_headline_shown (t : Ticker) : Ticker :=
  match t.headlines.get? t.current_headline_idx with
  | some h =>
      let key := match h.url with | some url => url | none => h.title
      { t with shown_urls := t.shown_urls.insert key }
  | none => t

/-- `Ticker::advance_to_next_headline`. -/
def advance_to_next_headline (t : Ticker) : Ticker :=
  let idx := t.current_headline_idx + 1
  match t.segments.get? idx with
  | some s => { t with current_headline_idx := idx, current_headline_end := s.«end» }
  | none => { t with current_headline_idx := idx }

/-- `Ticker::tick`. -/
def tick (t : Ticker) (delta_secs : ℚ) : Ticker :=
  if t.paused ∨ t.ticker_chars.isEmpty then t
  else
    let old_offset := floorNat t.offset
    let len : ℚ := t.ticker_chars.length
    let off1 := t.offset + delta_secs * t.speed
    let off2 := if len ≤ off1 then off1 - len else off1
    let t1 := { t with offset := off2 }
    if t1.rotation_mode = RotationMode.Fair ∧ ¬ t1.headlines.isEmpty then
      let new_offset := floorNat t1.offset
      if old_offset < new_offset then
        if old_offset < t1.current_headline_end ∧
            t1.current_headline_end ≤ new_offset then
          advance_to_next_headline (mark_current_headline_shown t1)
        else t1
      else if new_offset < old_offset then
        let t2 := mark_current_headline_shown t1
        { t2 with
          current_headline_idx := 0
          current_headline_end :=
            match t2.segments with
            | [] => 0
            | s :: _ => s.«end» }
      else t1
    else t1

/-- `Ticker::get_visible_text`: `width + 1` characters starting at the
discrete offset, indices reduced modulo the buffer length. -/
def get_visible_text (t : Ticker) (width : Nat) : List Char :=
  if t.ticker_chars.isEmpty then []
  else
    let len := t.ticker_chars.length
    let base := floorNat t.offset
    (List.range (width + 1)).map
      (fun i => t.ticker_chars.getD ((base + i) % len) ' ')

/-- The inner double test of `get_visible_segments` for one segment and one
wrap displacement. -/
def visibleCandidate (vis_start vis_end width : Nat) (seg : TickerSegment)
    (w : Nat) : Option VisibleSegment :=
  let seg_start := seg.start + w
  let seg_end := seg.«end» + w
  if seg_start < vis_end ∧ vis_start < seg_end then
    let start_in_view := seg_start - vis_start
    let end_in_view := min (seg_end - vis_start) width
    if start_in_view < width ∧ start_in_view < end_in_view then
      some ⟨start_in_view, end_in_view, seg.url⟩
    else none
  else none

/-- `Ticker::get_visible_segments`: each segment is tested at its natural
position and shifted by one buffer length, and overlaps with the viewport
are emitted in viewport coordinates. -/
def get_visible_segments (t : Ticker) (width : Nat) : List VisibleSegment :=
  if t.ticker_chars.isEmpty then []
  else
    let len := t.ticker_chars.length
    let base := floorNat t.offset
    t.segments.foldr
      (fun seg acc =>
        ([0, len].filterMap (visibleCandidate base (base + width) width seg))
          ++ acc)
      []

/-- `Ticker::get_url_at_position`: first visible segment containing the
column, returning its (possibly absent) URL. -/
def get_url_at_position (t : Ticker) (x width : Nat) : Option (List Char) :=
  match (get_visible_segments t width).find?
      (fun s => decide (s.start ≤ x ∧ x < s.«end»)) with
  | some s => s.url
  | none => none

/-- Real-valued modulo used by the specification's offset invariant:
`rmod x len = x - len * ⌊x / len⌋`, the representative of `x` in
`[0, len)` for `len > 0`. -/
def rmod (x len : ℚ) : ℚ := x - len * ⌊x / len⌋

/-- The segment list laid out by the compositor from position `pos`:
each headline occupies its display length, followed by one separator
(specification view of `rebuildLoop`'s second component). -/
def segChain (ss : Bool) (delim : List Char) : Nat → List Headline → List TickerSegment
  | _, [] => []
  | pos, h :: rest =>
      let e := pos + (displayText ss h).length
      ⟨pos, e, h.url⟩ :: segChain ss delim (e + delim.length) rest

/-! ### Concrete fixtures used by counterexamples and witnesses -/

/-- A small configuration: speed 5 chars/s, separator `" | "`, no source
prefix, fair rotation. -/
def demoConfig : Config := ⟨5, " | ".toList, false, RotationMode.Fair⟩

/-- Headline `"A"` without a URL. -/
def demoA : Headline := ⟨"A".toList, none, "S".toList⟩

/-- Headline `"B"` with URL `"u"`. -/
def demoB : Headline := ⟨"B".toList, some ("u".toList), "S".toList⟩

/-- Headline `"C"` with URL `"w"`. -/
def demoC : Headline := ⟨"C".toList, some ("w".toList), "S".toList⟩

/-- A fresh ticker loaded with `[demoA, demoB]`: buffer `"A | B | "`
(8 characters), segments `(0,1)` and `(4,5)`, offset `0`. -/
def demoTicker : Ticker := set_headlines (Ticker.new demoConfig) [demoA, demoB]

/-- A fresh ticker whose headline list was directly set, before any
rebuild. -/
def demoPre : Ticker := { Ticker.new demoConfig with headlines := [demoA, demoB] }

/-- A fresh ticker that remembers shown keys `"u"` (demoB's URL), `"A"`
(demoA's title key) and `"x"` (a retired item's key). -/
def staleTicker : Ticker :=
  { Ticker.new demoConfig with
    shown_urls := [("u".toList), ("A".toList), ("x".toList)] }

/-- A fresh ticker whose offset drifted to 100, past any demo buffer. -/
def bigOffsetTicker : Ticker := { Ticker.new demoConfig with offset := 100 }

/-! ### Small projection lemmas -/

theorem mark_offset_eq (t : Ticker) :
    (mark_current_headline_shown t).offset = t.offset := by
  unfold mark_current_headline_shown
  split <;> rfl

theorem advance_offset_eq (t : Ticker) :
    (advance_to_next_headline t).offset = t.offset := by
  unfold advance_to_next_headline
  dsimp only
  split <;> rfl

theorem rebuild_offset_eq (t : Ticker) :
    (rebuild_ticker_text t).offset = t.offset := by
  unfold rebuild_ticker_text
  split <;> rfl

theorem rebuild_shown_eq (t : Ticker) :
    (rebuild_ticker_text t).shown_urls = t.shown_urls := by
  unfold rebuild_ticker_text
  split <;> rfl

theorem mark_chars_eq (t : Ticker) :
    (mark_current_headline_shown t).ticker_chars = t.ticker_chars := by
  unfold mark_current_headline_shown
  split <;> rfl

theorem advance_chars_eq (t : Ticker) :
    (advance_to_next_headline t).ticker_chars = t.ticker_chars := by
  unfold advance_to_next_headline
  dsimp only
  split <;> rfl

/-- `tick` never changes the character buffer. -/
theorem tick_chars_eq (t : Ticker) (delta : ℚ) :
    (tick t delta).ticker_chars = t.ticker_chars := by
  unfold tick
  dsimp only
  repeat' split
  all_goals simp [advance_chars_eq, mark_chars_eq]

/-- The offset written by a non-paused `tick` on a non-empty buffer: the
advanced offset, with a single conditional subtraction of the buffer
length. -/
theorem tick_offset_eq (t : Ticker) (delta : ℚ)
    (hp : ¬ t.paused) (hne : ¬ t.ticker_chars.isEmpty) :
    (tick t delta).offset =
      (if (t.ticker_chars.length : ℚ) ≤ t.offset + delta * t.speed
       then t.offset + delta * t.speed - t.ticker_chars.length
       else t.offset + delta * t.speed) := by
  unfold tick
  rw [if_neg (by simp [hp, hne])]
  dsimp only
  repeat' split
  all_goals simp_all [advance_offset_eq, mark_offset_eq]

/-! ### Claim theorems -/

/-- C2: on an empty item list the placeholder only reaches `ticker_text`;
the cached `ticker_chars` that `tick` and all queries read stays empty, so
the clock does not advance over the placeholder.  Evaluated at the failing
input: a fresh ticker given `set_headlines []` and then `tick 1`. -/
theorem empty_headlines_placeholder_not_in_buffer :
    (set_headlines (Ticker.new demoConfig) []).ticker_text = placeholderText ∧
    (set_headlines (Ticker.new demoConfig) []).ticker_chars = [] ∧
    (set_headlines (Ticker.new demoConfig) []).segments = [] ∧
    tick (set_headlines (Ticker.new demoConfig) []) 1
      = set_headlines (Ticker.new demoConfig) [] := by
  refine ⟨by decide, by decide, by decide, ?_⟩
  decide

/-- C1, counterexample: on the 8-character buffer `"A | B | "` with speed 5,
`tick 10` advances by 50 characters; the single conditional subtraction
leaves the offset at 42, outside `[0, 8)`, while the claimed modulo result
is 2. -/
theorem tick_multiwrap_counterexample :
    (tick demoTicker 10).offset = 42 ∧
    ¬ (tick demoTicker 10).offset < ((tick demoTicker 10).ticker_chars.length : ℚ) ∧
    rmod (demoTicker.offset + 10 * (demoTicker.speed : ℚ))
        (demoTicker.ticker_chars.length) = 2 := by
  have hchars : demoTicker.ticker_chars.length = 8 := by decide
  have hoff : demoTicker.offset = 0 := by decide
  have hspeed : demoTicker.speed = 5 := by decide
  have h := tick_offset_eq demoTicker 10 (by decide) (by decide)
  rw [hchars, hoff, hspeed] at h
  norm_num at h
  refine ⟨by rw [h], ?_, ?_⟩
  · rw [h, tick_chars_eq, hchars]
    norm_num
  · unfold rmod
    have hfl : ⌊(demoTicker.offset + 10 * (demoTicker.speed : ℚ))
        / (demoTicker.ticker_chars.length : ℚ)⌋ = 6 := by
      rw [hoff, hspeed, hchars, Int.floor_eq_iff]
      norm_num
    rw [hfl, hoff, hspeed, hchars]
    norm_num

theorem rmod_of_lt (x len : ℚ) (h0 : 0 ≤ x) (h1 : x < len) : rmod x len = x := by
  have hlen : 0 < len := lt_of_le_of_lt h0 h1
  have hz : ⌊x / len⌋ = 0 := by
    rw [Int.floor_eq_iff]
    push_cast
    refine ⟨div_nonneg h0 hlen.le, ?_⟩
    rw [zero_add, div_lt_one hlen]
    exact h1
  rw [rmod, hz]
  ring

theorem rmod_of_ge (x len : ℚ) (hlen : 0 < len) (h0 : len ≤ x) (h1 : x < 2 * len) :
    rmod x len = x - len := by
  have hz : ⌊x / len⌋ = 1 := by
    rw [Int.floor_eq_iff]
    push_cast
    constructor
    · rw [le_div_iff₀ hlen]
      linarith
    · rw [div_lt_iff₀ hlen]
      linarith
  rw [rmod, hz]
  ring

/-- C1 (amended): for a non-paused ticker with a non-empty buffer, a
non-negative offset and a non-negative delta, `tick` realizes the modulo
renormalization into `[0, buffer_length)` provided the advanced offset
stays below two buffer lengths (at most a single wrap); the code's single
conditional subtraction does not handle a larger advance. -/
theorem tick_offset_single_wrap (t : Ticker) (delta : ℚ)
    (hp : ¬ t.paused) (hne : ¬ t.ticker_chars.isEmpty = true)
    (hoff : 0 ≤ t.offset) (hd : 0 ≤ delta)
    (hb : t.offset + delta * (t.speed : ℚ) < 2 * (t.ticker_chars.length : ℚ)) :
    (tick t delta).offset
        = rmod (t.offset + delta * (t.speed : ℚ)) (t.ticker_chars.length) ∧
    0 ≤ (tick t delta).offset ∧
    (tick t delta).offset < (t.ticker_chars.length : ℚ) := by
  have hnil : t.ticker_chars ≠ [] := by simpa using hne
  have hlen : 0 < (t.ticker_chars.length : ℚ) := by
    exact_mod_cast List.length_pos.mpr hnil
  have hsum : 0 ≤ t.offset + delta * (t.speed : ℚ) :=
    add_nonneg hoff (mul_nonneg hd (Nat.cast_nonneg _))
  have h := tick_offset_eq t delta hp hne
  by_cases hc : (t.ticker_chars.length : ℚ) ≤ t.offset + delta * (t.speed : ℚ)
  · rw [if_pos hc] at h
    rw [h, rmod_of_ge _ _ hlen hc hb]
    refine ⟨rfl, by linarith, by linarith⟩
  · rw [if_neg hc] at h
    push_neg at hc
    rw [h, rmod_of_lt _ _ hsum hc]
    exact ⟨rfl, hsum, hc⟩

/-- C1 witness: the single-wrap theorem applied to the demo ticker with
`delta = 1` (advance 5 on a buffer of length 8). -/
theorem tick_offset_single_wrap_witness :
    (0:ℚ) ≤ demoTicker.offset ∧
    demoTicker.offset + 1 * (demoTicker.speed : ℚ)
        < 2 * (demoTicker.ticker_chars.length : ℚ) ∧
    ((tick demoTicker 1).offset
        = rmod (demoTicker.offset + 1 * (demoTicker.speed : ℚ))
            (demoTicker.ticker_chars.length) ∧
     0 ≤ (tick demoTicker 1).offset ∧
     (tick demoTicker 1).offset < (demoTicker.ticker_chars.length : ℚ)) := by
  have h0 : demoTicker.offset = 0 := by decide
  have h8 : demoTicker.ticker_chars.length = 8 := by decide
  have h5 : demoTicker.speed = 5 := by decide
  refine ⟨h0.ge, by rw [h0, h8, h5]; norm_num, ?_⟩
  exact tick_offset_single_wrap demoTicker 1 (by decide) (by decide)
    h0.ge (by norm_num) (by rw [h0, h8, h5]; norm_num)

/-- C3: for a non-empty buffer, `get_visible_text width` has exactly
`width + 1` characters, and its `i`-th character is the buffer character
at `(floor(offset) mod buffer_length + i) mod buffer_length` — the slice
starting at the discrete offset, wrapping around the buffer end
(independently of the `getD` default). -/
theorem get_visible_text_window (t : Ticker) (width : Nat)
    (hne : t.ticker_chars ≠ []) :
    (get_visible_text t width).length = width + 1 ∧
    ∀ i c, i ≤ width →
      (get_visible_text t width).getD i c
        = t.ticker_chars.getD
            ((floorNat t.offset % t.ticker_chars.length + i)
              % t.ticker_chars.length) c := by
  have hemp : t.ticker_chars.isEmpty = false := by simpa using hne
  have hlen : 0 < t.ticker_chars.length := List.length_pos.mpr hne
  constructor
  · simp [get_visible_text, hemp]
  · intro i c hi
    have hidx : (floorNat t.offset + i) % t.ticker_chars.length
        < t.ticker_chars.length := Nat.mod_lt _ hlen
    rw [get_visible_text, if_neg (by simp [hemp])]
    dsimp only
    rw [Nat.mod_add_mod]
    rw [List.getD_eq_getElem?_getD, List.getElem?_map,
      List.getElem?_range (by omega)]
    simp only [Option.map_some', Option.getD_some]
    rw [List.getD_eq_getElem?_getD, List.getD_eq_getElem?_getD,
      List.getElem?_eq_getElem hidx]
    rfl

/-- C3 witness: the window theorem applied to the demo ticker at width 3;
character 2 of the window is buffer character `(0 + 2) mod 8`. -/
theorem get_visible_text_window_witness :
    demoTicker.ticker_chars ≠ [] ∧
    (get_visible_text demoTicker 3).length = 3 + 1 ∧
    (get_visible_text demoTicker 3).getD 2 'z'
      = demoTicker.ticker_chars.getD
          ((floorNat demoTicker.offset % demoTicker.ticker_chars.length + 2)
            % demoTicker.ticker_chars.length) 'z' :=
  ⟨by decide, (get_visible_text_window demoTicker 3 (by decide)).1,
    (get_visible_text_window demoTicker 3 (by decide)).2 2 'z' (by decide)⟩

/-- C5, counterexample: with the separator `" | "` the segment map of
`"A | B | "` is `[(0,1), (4,5)]`; the second segment starts at the first
segment's end plus the separator length, not at its end. -/
theorem segment_gap_counterexample :
    (demoTicker.segments.getD 1 ⟨0, 0, none⟩).start
        ≠ (demoTicker.segments.getD 0 ⟨0, 0, none⟩).«end» ∧
    (demoTicker.segments.getD 1 ⟨0, 0, none⟩).start
        = (demoTicker.segments.getD 0 ⟨0, 0, none⟩).«end»
          + demoTicker.delimiter.length := by
  refine ⟨by decide, by decide⟩

/-- C8, counterexample: on a non-empty buffer `get_visible_text 0` returns
one character (the `width + 1` contract), not the empty text the claim
asserts. -/
theorem visible_text_width_zero_counterexample :
    get_visible_text demoTicker 0 = ['A'] ∧ get_visible_text demoTicker 0 ≠ [] := by
  refine ⟨by decide, by decide⟩

/-! ### The segment chain produced by `rebuildLoop` -/

theorem rebuildLoop_snd_pos (ss : Bool) (delim : List Char) :
    ∀ (hs : List Headline) (idx pos : Nat),
      (rebuildLoop ss delim hs (idx + 1) pos).2
        = segChain ss delim (pos + delim.length) hs := by
  intro hs
  induction hs with
  | nil => intro idx pos; rfl
  | cons h rest ih =>
      intro idx pos
      simp only [rebuildLoop, segChain, if_pos (Nat.succ_pos idx)]
      rw [ih (idx + 1)]

theorem rebuildLoop_snd_zero (ss : Bool) (delim : List Char)
    (h : Headline) (rest : List Headline) (pos : Nat) :
    (rebuildLoop ss delim (h :: rest) 0 pos).2 = segChain ss delim pos (h :: rest) := by
  simp only [rebuildLoop, segChain, if_neg (Nat.lt_irrefl 0)]
  rw [rebuildLoop_snd_pos]
  simp

theorem rebuildLoop_fst_length_pos (ss : Bool) (delim : List Char) :
    ∀ (hs : List Headline) (idx pos : Nat),
      (rebuildLoop ss delim hs (idx + 1) pos).1.length
        = (hs.map fun h => (displayText ss h).length).sum
          + hs.length * delim.length := by
  intro hs
  induction hs with
  | nil => intro idx pos; simp [rebuildLoop]
  | cons h rest ih =>
      intro idx pos
      simp only [rebuildLoop, if_pos (Nat.succ_pos idx), List.map_cons,
        List.sum_cons, List.length_cons, List.length_append]
      rw [ih (idx + 1)]
      ring

theorem segChain_length (ss : Bool) (delim : List Char) :
    ∀ (hs : List Headline) (pos : Nat), (segChain ss delim pos hs).length = hs.length := by
  intro hs
  induction hs with
  | nil => intro pos; rfl
  | cons h rest ih => intro pos; simpa [segChain] using ih _

theorem segChain_map_url (ss : Bool) (delim : List Char) :
    ∀ (hs : List Headline) (pos : Nat),
      (segChain ss delim pos hs).map TickerSegment.url = hs.map Headline.url := by
  intro hs
  induction hs with
  | nil => intro pos; rfl
  | cons h rest ih => intro pos; simpa [segChain] using ih _

theorem rebuildLoop_fst_length_zero (ss : Bool) (delim : List Char)
    (h : Headline) (rest : List Headline) (pos : Nat) :
    (rebuildLoop ss delim (h :: rest) 0 pos).1.length
      = (displayText ss h).length
        + ((rest.map fun g => (displayText ss g).length).sum
          + rest.length * delim.length) := by
  simp only [rebuildLoop, if_neg (Nat.lt_irrefl 0)]
  rw [List.length_append, List.length_append, rebuildLoop_fst_length_pos]
  simp

/-- C4: for a non-empty headline list, the rebuilt buffer's length is the
sum of the display lengths plus one separator per headline (including a
trailing one), and there is exactly one segment per headline, in display
order (the segment URLs are the headline URLs in order). -/
theorem rebuild_buffer_length (t : Ticker) (hne : t.headlines ≠ []) :
    (rebuild_ticker_text t).ticker_chars.length
        = (t.headlines.map fun h => (displayText t.show_source h).length).sum
          + t.headlines.length * t.delimiter.length ∧
    (rebuild_ticker_text t).segments.length = t.headlines.length ∧
    (rebuild_ticker_text t).segments.map TickerSegment.url
        = t.headlines.map Headline.url := by
  have hemp : t.headlines.isEmpty = false := by simpa using hne
  obtain ⟨h, rest, hcons⟩ := List.exists_cons_of_ne_nil hne
  rw [rebuild_ticker_text, if_neg (by simp [hemp])]
  dsimp only
  refine ⟨?_, ?_, ?_⟩
  · rw [List.length_append, hcons, rebuildLoop_fst_length_zero]
    simp only [List.map_cons, List.sum_cons, List.length_cons]
    ring
  · rw [hcons, rebuildLoop_snd_zero, segChain_length]
  · rw [hcons, rebuildLoop_snd_zero, segChain_map_url]

theorem segChain_start_le_end (ss : Bool) (delim : List Char) :
    ∀ (hs : List Headline) (pos : Nat) (s : TickerSegment),
      s ∈ segChain ss delim pos hs → s.start ≤ s.«end» := by
  intro hs
  induction hs with
  | nil => intro pos s hm; simp [segChain] at hm
  | cons h rest ih =>
      intro pos s hm
      simp only [segChain, List.mem_cons] at hm
      rcases hm with rfl | hm
      · exact Nat.le_add_right _ _
      · exact ih _ s hm

theorem segChain_le_start (ss : Bool) (delim : List Char) :
    ∀ (hs : List Headline) (pos : Nat) (s : TickerSegment),
      s ∈ segChain ss delim pos hs → pos ≤ s.start := by
  intro hs
  induction hs with
  | nil => intro pos s hm; simp [segChain] at hm
  | cons h rest ih =>
      intro pos s hm
      simp only [segChain, List.mem_cons] at hm
      rcases hm with rfl | hm
      · exact Nat.le_refl _
      · have := ih _ s hm
        omega

theorem segChain_adjacent (ss : Bool) (delim : List Char) :
    ∀ (hs : List Headline) (pos : Nat),
      List.Chain' (fun a b => b.start = a.«end» + delim.length)
        (segChain ss delim pos hs) := by
  intro hs
  induction hs with
  | nil => intro pos; simp [segChain]
  | cons h rest ih =>
      intro pos
      cases rest with
      | nil => simp [segChain]
      | cons g gs =>
          simp only [segChain]
          rw [List.chain'_cons]
          exact ⟨rfl, by simpa [segChain] using ih (pos + (displayText ss h).length + delim.length)⟩

theorem segChain_disjoint (ss : Bool) (delim : List Char) :
    ∀ (hs : List Headline) (pos : Nat),
      List.Pairwise (fun a b => a.«end» ≤ b.start) (segChain ss delim pos hs) := by
  intro hs
  induction hs with
  | nil => intro pos; simp [segChain]
  | cons h rest ih =>
      intro pos
      simp only [segChain]
      refine List.Pairwise.cons ?_ (ih _)
      intro s hm
      have := segChain_le_start ss delim rest _ s hm
      dsimp only
      omega

/-- C5 (amended): for a non-empty headline list, the rebuilt segments are
sorted by `start`, adjacent segments obey
`start_{i+1} = end_i + separator_length` — the separator occupies the gap,
so `start_{i+1} = end_i` fails whenever the separator is non-empty — and
the segments are pairwise disjoint. -/
theorem rebuild_segments_layout (t : Ticker) (hne : t.headlines ≠ []) :
    List.Chain' (fun a b => b.start = a.«end» + t.delimiter.length)
        (rebuild_ticker_text t).segments ∧
    (∀ s ∈ (rebuild_ticker_text t).segments, s.start ≤ s.«end») ∧
    List.Pairwise (fun a b => a.«end» ≤ b.start)
        (rebuild_ticker_text t).segments ∧
    List.Pairwise (fun a b => a.start ≤ b.start)
        (rebuild_ticker_text t).segments := by
  have hemp : t.headlines.isEmpty = false := by simpa using hne
  obtain ⟨h, rest, hcons⟩ := List.exists_cons_of_ne_nil hne
  rw [rebuild_ticker_text, if_neg (by simp [hemp])]
  dsimp only
  rw [hcons, rebuildLoop_snd_zero]
  refine ⟨segChain_adjacent _ _ _ _,
    fun s hm => segChain_start_le_end _ _ _ _ s hm,
    segChain_disjoint _ _ _ _, ?_⟩
  refine (segChain_disjoint t.show_source t.delimiter (h :: rest) 0).imp_of_mem ?_
  intro a b ha _ hr
  exact le_trans (segChain_start_le_end _ _ _ _ a ha) hr

/-- C5 witness: the layout theorem applied to the demo list, whose
segments are `[(0,1), (4,5)]` with separator length 3. -/
theorem rebuild_segments_layout_witness :
    demoPre.headlines ≠ [] ∧
    List.Chain' (fun a b => b.start = a.«end» + demoPre.delimiter.length)
        (rebuild_ticker_text demoPre).segments ∧
    List.Pairwise (fun a b => a.«end» ≤ b.start)
        (rebuild_ticker_text demoPre).segments :=
  ⟨by decide, (rebuild_segments_layout demoPre (by decide)).1,
    (rebuild_segments_layout demoPre (by decide)).2.2.1⟩

theorem set_headlines_shown_eq (t : Ticker) (hs : List Headline) :
    (set_headlines t hs).shown_urls = (fairReconcile t hs).1 := by
  rw [set_headlines]
  dsimp only
  split <;> rw [rebuild_shown_eq]

theorem set_headlines_chars_eq (t : Ticker) (hs : List Headline) :
    (set_headlines t hs).ticker_chars
      = (rebuild_ticker_text
          { t with shown_urls := (fairReconcile t hs).1,
                   headlines := (fairReconcile t hs).2 }).ticker_chars := by
  rw [set_headlines]
  dsimp only
  split <;> rfl

theorem set_headlines_offset_eq (t : Ticker) (hs : List Headline) :
    (set_headlines t hs).offset =
      if 0 < ((set_headlines t hs).ticker_chars.length : ℚ) ∧
          ((set_headlines t hs).ticker_chars.length : ℚ) ≤ t.offset
      then 0 else t.offset := by
  rw [set_headlines_chars_eq, set_headlines]
  dsimp only
  rw [rebuild_offset_eq]
  dsimp only
  split
  · rfl
  · rw [rebuild_offset_eq]

/-- Membership in the reconciled shown set implies the key is the URL of
one of the incoming headlines. -/
theorem fairReconcile_fst_sub (t : Ticker) (hs : List Headline)
    (hmode : t.rotation_mode = RotationMode.Fair)
    (k : List Char) (hk : k ∈ (fairReconcile t hs).1) :
    ∃ h, h ∈ hs ∧ h.url = some k := by
  rw [fairReconcile, if_pos hmode] at hk
  dsimp only at hk
  split at hk
  · simp at hk
  · rw [List.mem_filter] at hk
    have hmem := of_decide_eq_true hk.2
    rw [List.mem_filterMap] at hmem
    obtain ⟨h, hh, hurl⟩ := hmem
    rw [List.mem_append, List.mem_filter, List.mem_filter] at hh
    rcases hh with hh | hh
    · exact ⟨h, hh.1, hurl⟩
    · exact ⟨h, hh.1, hurl⟩

/-- C7: with fair rotation enabled, every key remaining in the shown set
after `set_headlines` is the identity key of some headline of the new
generation; keys of retired items are dropped. -/
theorem set_headlines_no_stale_keys (t : Ticker) (hs : List Headline)
    (hmode : t.rotation_mode = RotationMode.Fair)
    (k : List Char) (hk : k ∈ (set_headlines t hs).shown_urls) :
    ∃ h, h ∈ hs ∧ (match h.url with | some url => url | none => h.title) = k := by
  rw [set_headlines_shown_eq] at hk
  obtain ⟨h, hh, hurl⟩ := fairReconcile_fst_sub t hs hmode k hk
  exact ⟨h, hh, by rw [hurl]⟩

/-- C7 witness: `staleTicker` remembers keys `u`, `A`, `x`; after a new
generation `[demoA, demoB, demoC]` the key `u` (demoB's URL) survives and
is demoB's identity key. -/
theorem set_headlines_no_stale_keys_witness :
    ("u".toList ∈ (set_headlines staleTicker [demoA, demoB, demoC]).shown_urls) ∧
    ∃ h, h ∈ [demoA, demoB, demoC] ∧
      (match h.url with | some url => url | none => h.title) = "u".toList :=
  ⟨by decide,
    set_headlines_no_stale_keys staleTicker [demoA, demoB, demoC]
      (by decide) ("u".toList) (by decide)⟩

/-- C10: after a fair-rotation `set_headlines`, the shown set holds only
URL-derived keys; consequently a headline without a URL whose title is not
any new headline's URL is reported unshown, even if it was marked shown
(by its title key) in the previous generation. -/
theorem set_headlines_only_url_keys (t : Ticker) (hs : List Headline)
    (hmode : t.rotation_mode = RotationMode.Fair) :
    (∀ k ∈ (set_headlines t hs).shown_urls, ∃ h, h ∈ hs ∧ h.url = some k) ∧
    (∀ g : Headline, g.url = none → (∀ h ∈ hs, h.url ≠ some g.title) →
      is_headline_shown (set_headlines t hs) g = false) := by
  have hsub : ∀ k ∈ (set_headlines t hs).shown_urls, ∃ h, h ∈ hs ∧ h.url = some k := by
    intro k hk
    rw [set_headlines_shown_eq] at hk
    exact fairReconcile_fst_sub t hs hmode k hk
  refine ⟨hsub, ?_⟩
  intro g hg hnone
  rw [is_headline_shown, hg]
  rw [decide_eq_false_iff_not]
  intro hmem
  obtain ⟨h, hh, hurl⟩ := hsub g.title hmem
  exact hnone h hh hurl

/-- C10 witness: `staleTicker`'s title key `A` for the URL-less `demoA` is
dropped by reconciliation although `demoA` is still present, so `demoA` is
reported unshown in the new generation. -/
theorem set_headlines_only_url_keys_witness :
    demoA.url = none ∧
    (∀ h ∈ [demoA, demoB, demoC], h.url ≠ some demoA.title) ∧
    is_headline_shown (set_headlines staleTicker [demoA, demoB, demoC]) demoA
      = false :=
  ⟨by decide, by decide,
    (set_headlines_only_url_keys staleTicker [demoA, demoB, demoC] (by decide)).2
      demoA (by decide) (by decide)⟩

/-- C9: across `set_headlines`, when the rebuilt buffer is non-empty the
offset is preserved whenever it is smaller than the new buffer length and
reset to zero when it is not, so a non-negative offset always ends inside
`[0, new buffer length)`. -/
theorem set_headlines_offset_policy (t : Ticker) (hs : List Headline)
    (hlen : (set_headlines t hs).ticker_chars.length ≠ 0) :
    (t.offset < ((set_headlines t hs).ticker_chars.length : ℚ) →
        (set_headlines t hs).offset = t.offset) ∧
    (((set_headlines t hs).ticker_chars.length : ℚ) ≤ t.offset →
        (set_headlines t hs).offset = 0) ∧
    (0 ≤ t.offset →
        0 ≤ (set_headlines t hs).offset ∧
        (set_headlines t hs).offset
          < ((set_headlines t hs).ticker_chars.length : ℚ)) := by
  have hpos : (0:ℚ) < ((set_headlines t hs).ticker_chars.length : ℚ) := by
    exact_mod_cast Nat.pos_of_ne_zero hlen
  refine ⟨?_, ?_, ?_⟩
  · intro hlt
    rw [set_headlines_offset_eq]
    rw [if_neg]
    rintro ⟨-, hle⟩
    exact absurd (lt_of_le_of_lt hle hlt) (lt_irrefl _)
  · intro hle
    rw [set_headlines_offset_eq, if_pos ⟨hpos, hle⟩]
  · intro h0
    rw [set_headlines_offset_eq]
    by_cases hc : ((set_headlines t hs).ticker_chars.length : ℚ) ≤ t.offset
    · rw [if_pos ⟨hpos, hc⟩]
      exact ⟨le_refl _, hpos⟩
    · rw [if_neg (by rintro ⟨-, hle⟩; exact hc hle)]
      exact ⟨h0, lt_of_not_le hc⟩

/-- C9 witness: a ticker whose offset drifted to 100 gets reset to 0 by a
generation whose buffer has 8 characters. -/
theorem set_headlines_offset_policy_witness :
    (set_headlines bigOffsetTicker [demoA, demoB]).ticker_chars.length ≠ 0 ∧
    ((set_headlines bigOffsetTicker [demoA, demoB]).ticker_chars.length : ℚ)
        ≤ bigOffsetTicker.offset ∧
    (set_headlines bigOffsetTicker [demoA, demoB]).offset = 0 :=
  ⟨by decide, by decide,
    (set_headlines_offset_policy bigOffsetTicker [demoA, demoB] (by decide)).2.1
      (by decide)⟩

theorem visibleCandidate_width_zero (vs ve : Nat) (seg : TickerSegment) (w : Nat) :
    visibleCandidate vs ve 0 seg w = none := by
  rw [visibleCandidate]
  dsimp only
  split
  · rw [if_neg]
    simp
  · rfl

/-- C8 (amended): at viewport width 0, `get_visible_segments` and
`get_url_at_position` return empty results, while `get_visible_text`
returns one character on a non-empty buffer (honouring its `width + 1`
contract) and the empty text only on an empty buffer. -/
theorem width_zero_queries (t : Ticker) (x : Nat) :
    (get_visible_text t 0).length = (if t.ticker_chars.isEmpty then 0 else 1) ∧
    get_visible_segments t 0 = [] ∧
    get_url_at_position t x 0 = none := by
  have hseg : get_visible_segments t 0 = [] := by
    rw [get_visible_segments]
    split
    · rfl
    · dsimp only
      generalize t.segments = segs
      induction segs with
      | nil => rfl
      | cons s rest ih =>
          rw [List.foldr_cons, ih]
          rw [List.append_nil]
          simp [visibleCandidate_width_zero]
  refine ⟨?_, hseg, ?_⟩
  · rw [get_visible_text]
    split
    next h => simp [h]
    next h => simp [h]
  · rw [get_url_at_position, hseg]
    rfl

/-- C6: with fair rotation on, whenever a `tick` moves the discrete offset
forward across the end boundary of the currently displaying headline
(`old < boundary ≤ new`, with `new` the post-wrap discrete offset), that
headline's identity key is inserted into the shown set, the current-item
pointer advances by one, and when a next segment exists the tracked
boundary becomes its end. -/
theorem tick_boundary_crossing (t : Ticker) (delta : ℚ) (h : Headline)
    (hmode : t.rotation_mode = RotationMode.Fair)
    (hp : ¬ t.paused = true) (hchars : ¬ t.ticker_chars.isEmpty = true)
    (hhs : ¬ t.headlines.isEmpty = true)
    (hget : t.headlines.get? t.current_headline_idx = some h)
    (hold : floorNat t.offset < t.current_headline_end)
    (hnew : t.current_headline_end ≤ floorNat
        (if (t.ticker_chars.length : ℚ) ≤ t.offset + delta * (t.speed : ℚ)
         then t.offset + delta * (t.speed : ℚ) - (t.ticker_chars.length : ℚ)
         else t.offset + delta * (t.speed : ℚ))) :
    (tick t delta).shown_urls
        = t.shown_urls.insert
            (match h.url with | some url => url | none => h.title) ∧
    (tick t delta).current_headline_idx = t.current_headline_idx + 1 ∧
    ∀ s, t.segments.get? (t.current_headline_idx + 1) = some s →
      (tick t delta).current_headline_end = s.«end» := by
  rw [tick, if_neg (by simp [hp, hchars])]
  dsimp only
  rw [if_pos ⟨hmode, hhs⟩]
  rw [if_pos (lt_of_lt_of_le hold hnew)]
  rw [if_pos ⟨hold, hnew⟩]
  rw [mark_current_headline_shown]
  dsimp only
  rw [hget]
  dsimp only
  rw [advance_to_next_headline]
  dsimp only
  refine ⟨?_, ?_, ?_⟩
  · split <;> rfl
  · split <;> rfl
  · intro s hs
    rw [hs]

/-- C6 witness: on the demo ticker (boundary 1 of headline `"A"`),
`tick (1/5)` advances the discrete offset from 0 to 1, inserting `"A"`'s
title key, moving the pointer to 1 and the boundary to 5. -/
theorem tick_boundary_crossing_witness :
    (tick demoTicker (1/5)).shown_urls = demoTicker.shown_urls.insert ("A".toList) ∧
    (tick demoTicker (1/5)).current_headline_idx = 1 ∧
    (tick demoTicker (1/5)).current_headline_end = 5 := by
  have h := tick_boundary_crossing demoTicker (1/5) demoA (by decide) (by decide)
    (by decide) (by decide) (by decide) (by decide) ?cross
  case cross =>
    have h8 : demoTicker.ticker_chars.length = 8 := by decide
    have h0 : demoTicker.offset = 0 := by decide
    have h5 : demoTicker.speed = 5 := by decide
    rw [h8, h0, h5]
    rw [if_neg (by norm_num)]
    have : (0 : ℚ) + 1/5 * ((5 : ℕ) : ℚ) = 1 := by norm_num
    rw [this]
    have hfl : floorNat 1 = 1 := by
      rw [floorNat, Int.floor_one]
      rfl
    rw [hfl]
    decide
  refine ⟨?_, h.2.1, h.2.2 ⟨4, 5, some ("u".toList)⟩ (by decide)⟩
  rw [h.1]
  rfl

/-- C4 witness: the demo list `["A", "B"]` with separator `" | "` yields a
buffer of `(1 + 1) + 2 × 3 = 8` characters and 2 segments. -/
theorem rebuild_buffer_length_witness :
    demoPre.headlines ≠ [] ∧
    (rebuild_ticker_text demoPre).ticker_chars.length
        = (demoPre.headlines.map fun h => (displayText demoPre.show_source h).length).sum
          + demoPre.headlines.length * demoPre.delimiter.length ∧
    (rebuild_ticker_text demoPre).segments.length = demoPre.headlines.length ∧
    (rebuild_ticker_text demoPre).ticker_chars.length = 8 :=
  ⟨by decide, (rebuild_buffer_length demoPre (by decide)).1,
    (rebuild_buffer_length demoPre (by decide)).2.1, by decide⟩

end Chyron
